import Mathlib

/-!
Shallow embedding of the animation/audio smoothing logic of the repository
(src/src/components/GlobalClickSound.tsx and the two unnamed scene files),
with proofs of the specification's testable properties.

Real-valued program quantities are modelled as rationals, except for the
spin-velocity exponential decay, whose fractional exponent needs real powers.
-/

namespace Helmet

/-- The damped-approach primitive from GlobalClickSound.tsx:
if current < target, return min target (current + maxDelta);
if current > target, return max target (current - maxDelta);
otherwise return current. -/
def approach (current target maxDelta : ℚ) : ℚ :=
  if current < target then min target (current + maxDelta)
  else if current > target then max target (current - maxDelta)
  else current

lemma approach_self (t d : ℚ) : approach t t d = t := by
  simp [approach]

lemma approach_of_le (c t d : ℚ) (h : c ≤ t) (hd : 0 ≤ d) :
    approach c t d = min t (c + d) := by
  rcases lt_or_eq_of_le h with h' | h'
  · simp [approach, h']
  · subst h'
    simp [approach]
    exact hd

lemma approach_of_ge (c t d : ℚ) (h : t ≤ c) (hd : 0 ≤ d) :
    approach c t d = max t (c - d) := by
  rcases lt_or_eq_of_le h with h' | h'
  · have hnlt : ¬ c < t := not_lt.mpr h'.le
    simp [approach, hnlt, h']
  · subst h'
    simp [approach]
    linarith

lemma min_le_approach (c t d : ℚ) (hd : 0 ≤ d) : min c t ≤ approach c t d := by
  unfold approach
  split_ifs with h1 h2
  · rw [min_eq_left h1.le]
    exact le_min h1.le (by linarith)
  · exact le_trans (min_le_right c t) (le_max_left t (c - d))
  · exact min_le_left c t

lemma approach_le_max (c t d : ℚ) (hd : 0 ≤ d) : approach c t d ≤ max c t := by
  unfold approach
  split_ifs with h1 h2
  · exact le_trans (min_le_left t (c + d)) (le_max_right c t)
  · exact max_le (le_max_right c t) (le_trans (by linarith) (le_max_left c t))
  · exact le_max_left c t

lemma approach_nonneg (c t d : ℚ) (hc : 0 ≤ c) (ht : 0 ≤ t) (hd : 0 ≤ d) :
    0 ≤ approach c t d :=
  le_trans (le_min hc ht) (min_le_approach c t d hd)

lemma approach_le_of_le (c t d b : ℚ) (hc : c ≤ b) (ht : t ≤ b) (hd : 0 ≤ d) :
    approach c t d ≤ b :=
  le_trans (approach_le_max c t d hd) (max_le hc ht)

lemma approach_abs_le (c t d : ℚ) (hd : 0 ≤ d) : |approach c t d - c| ≤ d := by
  unfold approach
  split_ifs with h1 h2
  · rw [abs_le]
    constructor
    · have : c ≤ min t (c + d) := le_min h1.le (by linarith)
      linarith
    · have := min_le_right t (c + d)
      linarith
  · rw [abs_le]
    constructor
    · have := le_max_right t (c - d)
      linarith
    · have : max t (c - d) ≤ c := max_le (by linarith) (by linarith)
      linarith
  · simpa using hd

/-- Upper bound used by the idle-decay analysis: one damped step toward a
target is at most the larger of the target and the start minus the step. -/
lemma approach_le_max_target_sub (c t d : ℚ) (hd : 0 ≤ d) :
    approach c t d ≤ max t (c - d) := by
  unfold approach
  split_ifs with h1 h2
  · exact le_trans (min_le_left t (c + d)) (le_max_left t (c - d))
  · exact le_refl _
  · have h : c = t := le_antisymm (not_lt.mp h2) (not_lt.mp h1)
    subst h
    exact le_max_left c (c - d)

/-- C1: for maxDelta ≥ 0, a single damped-approach step stays inside the
closed interval spanned by current and target and moves current by at most
maxDelta (so it never overshoots the target). -/
theorem approach_within_interval (c t d : ℚ) (hd : 0 ≤ d) :
    min c t ≤ approach c t d ∧ approach c t d ≤ max c t ∧
    |approach c t d - c| ≤ d :=
  ⟨min_le_approach c t d hd, approach_le_max c t d hd, approach_abs_le c t d hd⟩

theorem approach_within_interval_witness :
    min (3 : ℚ) 7 ≤ approach 3 7 2 ∧ approach 3 7 2 ≤ max 3 7 ∧
    |approach 3 7 2 - 3| ≤ 2 :=
  approach_within_interval 3 7 2 (by norm_num)

lemma approach_iterate_of_le (c t d : ℚ) (h : c ≤ t) (hd : 0 ≤ d) (n : ℕ) :
    (fun x => approach x t d)^[n] c = min t (c + n * d) := by
  induction n with
  | zero => simpa using (min_eq_right h).symm
  | succ n ih =>
      rw [Function.iterate_succ_apply', ih]
      have hmin : min t (c + n * d) ≤ t := min_le_left _ _
      rw [approach_of_le _ _ _ hmin hd]
      rcases le_total t (c + n * d) with hle | hle
      · rw [min_eq_left hle]
        have ht2 : t ≤ c + (n + 1 : ℕ) * d := by
          push_cast
          nlinarith
        rw [min_eq_left (by linarith), min_eq_left ht2]
      · rw [min_eq_right hle]
        have : c + (n : ℚ) * d + d = c + ((n : ℕ) + 1 : ℕ) * d := by
          push_cast
          ring
        rw [this]

lemma approach_iterate_of_ge (c t d : ℚ) (h : t ≤ c) (hd : 0 ≤ d) (n : ℕ) :
    (fun x => approach x t d)^[n] c = max t (c - n * d) := by
  induction n with
  | zero => simpa using (max_eq_right h).symm
  | succ n ih =>
      rw [Function.iterate_succ_apply', ih]
      have hmax : t ≤ max t (c - n * d) := le_max_left _ _
      rw [approach_of_ge _ _ _ hmax hd]
      rcases le_total (c - n * d) t with hle | hle
      · rw [max_eq_left hle]
        have ht2 : c - (n + 1 : ℕ) * d ≤ t := by
          push_cast
          nlinarith
        rw [max_eq_left (by linarith), max_eq_left ht2]
      · rw [max_eq_right hle]
        have : c - (n : ℚ) * d - d = c - ((n : ℕ) + 1 : ℕ) * d := by
          push_cast
          ring
        rw [this]

/-- C2 counterexample: with maxDelta = 0 (allowed by the claim, which only
requires maxDelta ≥ 0) the iterates of the damped step from 0 toward 1 are
constantly 0, so repeated application never converges to the target. -/
theorem approach_iterate_stuck_at_zero_delta :
    ¬ ∃ n : ℕ, (fun x => approach x (1 : ℚ) 0)^[n] 0 = 1 := by
  rintro ⟨n, hn⟩
  rw [approach_iterate_of_le 0 1 0 (by norm_num) (le_refl 0) n] at hn
  simp at hn

/-- C2 (amended): the damped step is a no-op once current = target for any
maxDelta, and for strictly positive maxDelta the iterates from any start are
monotone toward the target, bounded by it, and reach exactly the target after
finitely many steps. (For maxDelta = 0 the sequence can stall short of the
target, as the counterexample shows.) -/
theorem approach_iterate_monotone_reaches_target (c t d : ℚ) (hd : 0 < d) :
    (∀ d' : ℚ, approach t t d' = t) ∧
    (c ≤ t →
      (∀ n : ℕ, (fun x => approach x t d)^[n] c ≤ (fun x => approach x t d)^[n + 1] c ∧
        (fun x => approach x t d)^[n] c ≤ t) ∧
      ∃ N : ℕ, (fun x => approach x t d)^[N] c = t) ∧
    (t ≤ c →
      (∀ n : ℕ, (fun x => approach x t d)^[n + 1] c ≤ (fun x => approach x t d)^[n] c ∧
        t ≤ (fun x => approach x t d)^[n] c) ∧
      ∃ N : ℕ, (fun x => approach x t d)^[N] c = t) := by
  refine ⟨fun d' => approach_self t d', fun h => ⟨fun n => ?_, ?_⟩, fun h => ⟨fun n => ?_, ?_⟩⟩
  · rw [approach_iterate_of_le c t d h hd.le n, approach_iterate_of_le c t d h hd.le (n + 1)]
    constructor
    · apply min_le_min (le_refl t)
      push_cast
      nlinarith
    · exact min_le_left _ _
  · refine ⟨Nat.ceil ((t - c) / d), ?_⟩
    rw [approach_iterate_of_le c t d h hd.le _]
    have hceil : (t - c) / d ≤ (Nat.ceil ((t - c) / d) : ℚ) := Nat.le_ceil _
    have : t - c ≤ (Nat.ceil ((t - c) / d) : ℚ) * d := by
      rw [div_le_iff hd] at hceil
      linarith
    exact min_eq_left (by linarith)
  · rw [approach_iterate_of_ge c t d h hd.le n, approach_iterate_of_ge c t d h hd.le (n + 1)]
    constructor
    · apply max_le_max (le_refl t)
      push_cast
      nlinarith
    · exact le_max_left _ _
  · refine ⟨Nat.ceil ((c - t) / d), ?_⟩
    rw [approach_iterate_of_ge c t d h hd.le _]
    have hceil : (c - t) / d ≤ (Nat.ceil ((c - t) / d) : ℚ) := Nat.le_ceil _
    have : c - t ≤ (Nat.ceil ((c - t) / d) : ℚ) * d := by
      rw [div_le_iff hd] at hceil
      linarith
    exact max_eq_left (by linarith)

theorem approach_iterate_monotone_reaches_target_witness :
    (∀ d' : ℚ, approach 1 1 d' = 1) ∧
    ((0 : ℚ) ≤ 1 →
      (∀ n : ℕ, (fun x => approach x (1 : ℚ) (1/3))^[n] 0 ≤ (fun x => approach x (1 : ℚ) (1/3))^[n + 1] 0 ∧
        (fun x => approach x (1 : ℚ) (1/3))^[n] 0 ≤ 1) ∧
      ∃ N : ℕ, (fun x => approach x (1 : ℚ) (1/3))^[N] 0 = 1) ∧
    ((1 : ℚ) ≤ 0 →
      (∀ n : ℕ, (fun x => approach x (1 : ℚ) (1/3))^[n + 1] 0 ≤ (fun x => approach x (1 : ℚ) (1/3))^[n] 0 ∧
        1 ≤ (fun x => approach x (1 : ℚ) (1/3))^[n] 0) ∧
      ∃ N : ℕ, (fun x => approach x (1 : ℚ) (1/3))^[N] 0 = 1) :=
  approach_iterate_monotone_reaches_target 0 1 (1/3) (by norm_num)

/-- State of the ImageTube scroll loop (unnamed scene files): the eased
scroll position, the wheel-accumulated scroll target, and a ghost
accumulator recording the loop-height multiples removed by wrapping, so
that `scrollCurrent + wrapOffset` is the unwrapped scroll position. -/
structure TubeState where
  scrollCurrent : ℚ
  scrollTarget : ℚ
  wrapOffset : ℚ
deriving DecidableEq

/-- One useFrame body of ImageTube restricted to the scroll state:
ease the current position toward the target by the fixed 0.12 blend, then
wrap by one loop height when the eased position passes half the loop height
in either direction (shifting current and target together). `L` is the loop
height (rows * ySpacing: 3 * 2.7 in one scene file, 5 * 2.7 in the other). -/
def tubeStep (L : ℚ) (st : TubeState) : TubeState :=
  let s := st.scrollCurrent + (st.scrollTarget - st.scrollCurrent) * (12/100)
  if s > L / 2 then
    { scrollCurrent := s - L, scrollTarget := st.scrollTarget - L,
      wrapOffset := st.wrapOffset + L }
  else if s < -(L / 2) then
    { scrollCurrent := s + L, scrollTarget := st.scrollTarget + L,
      wrapOffset := st.wrapOffset - L }
  else
    { st with scrollCurrent := s }

/-- A wheel event adds its (scaled) delta to the scroll target
(onWheel: tubeScrollTarget.current += event.deltaY * 0.002); `delta` is the
already-scaled increment. -/
def tubeWheel (delta : ℚ) (st : TubeState) : TubeState :=
  { st with scrollTarget := st.scrollTarget + delta }

/-- One frame preceded by the wheel input accumulated since the last frame. -/
def tubeFrame (L delta : ℚ) (st : TubeState) : TubeState :=
  tubeStep L (tubeWheel delta st)

/-- The unwrapped eased scroll position: the stored position plus the
loop-height multiples removed at each wrap. -/
def unwrapped (st : TubeState) : ℚ :=
  st.scrollCurrent + st.wrapOffset

lemma tubeFrame_unwrapped_delta (L delta : ℚ) (st : TubeState) :
    unwrapped (tubeFrame L delta st) - unwrapped st =
      (st.scrollTarget + delta - st.scrollCurrent) * (12/100) := by
  unfold tubeFrame tubeStep tubeWheel unwrapped
  dsimp only
  split_ifs <;> ring

lemma tubeFrame_gap (L delta : ℚ) (st : TubeState) :
    (tubeFrame L delta st).scrollTarget - (tubeFrame L delta st).scrollCurrent =
      (st.scrollTarget + delta - st.scrollCurrent) * (88/100) := by
  unfold tubeFrame tubeStep tubeWheel
  dsimp only
  split_ifs <;> ring

lemma tubeFrame_mono (L delta : ℚ) (st : TubeState) (hδ : 0 ≤ delta)
    (hst : st.scrollCurrent ≤ st.scrollTarget) :
    unwrapped st ≤ unwrapped (tubeFrame L delta st) ∧
    (tubeFrame L delta st).scrollCurrent ≤ (tubeFrame L delta st).scrollTarget := by
  constructor
  · have h := tubeFrame_unwrapped_delta L delta st
    nlinarith
  · have h := tubeFrame_gap L delta st
    nlinarith

lemma tube_chain_aux (L : ℚ) :
    ∀ (deltas : List ℚ) (st : TubeState), (∀ d ∈ deltas, 0 ≤ d) →
      st.scrollCurrent ≤ st.scrollTarget →
      List.Chain' (· ≤ ·)
        (List.map unwrapped (List.scanl (fun s d => tubeFrame L d s) st deltas)) := by
  intro deltas
  induction deltas with
  | nil => intro st _ _; simp
  | cons d ds ih =>
      intro st hδ hst
      rw [List.scanl_cons]
      simp only [List.singleton_append, List.map_cons]
      have hd0 : 0 ≤ d := hδ d (List.mem_cons_self d ds)
      have hstep := tubeFrame_mono L d st hd0 hst
      apply List.Chain'.cons'
      · exact ih (tubeFrame L d st) (fun x hx => hδ x (List.mem_cons_of_mem d hx)) hstep.2
      · intro b hb
        rcases ds with _ | ⟨d', ds'⟩
        · simp at hb
          subst hb
          exact hstep.1
        · rw [List.scanl_cons] at hb
          simp only [List.singleton_append, List.map_cons, List.head?_cons,
            Option.mem_def, Option.some.injEq] at hb
          subst hb
          exact hstep.1

/-- C3: per frame the unwrapped eased scroll moves by exactly the 0.12 blend
of the remaining gap; the wrap shifts current and target together, leaving
their difference at 0.88 of the pre-frame gap; and for non-negative wheel
increments from a state where the current does not exceed the target, the
unwrapped eased scroll trajectory is non-decreasing. -/
theorem tube_unwrapped_monotone (L : ℚ) (deltas : List ℚ) (st : TubeState)
    (hδ : ∀ d ∈ deltas, 0 ≤ d) (hst : st.scrollCurrent ≤ st.scrollTarget) :
    (∀ (d : ℚ) (s : TubeState),
      unwrapped (tubeFrame L d s) - unwrapped s =
        (s.scrollTarget + d - s.scrollCurrent) * (12/100)) ∧
    (∀ (d : ℚ) (s : TubeState),
      (tubeFrame L d s).scrollTarget - (tubeFrame L d s).scrollCurrent =
        (s.scrollTarget + d - s.scrollCurrent) * (88/100)) ∧
    List.Chain' (· ≤ ·)
      (List.map unwrapped (List.scanl (fun s d => tubeFrame L d s) st deltas)) :=
  ⟨fun d s => tubeFrame_unwrapped_delta L d s,
   fun d s => tubeFrame_gap L d s,
   tube_chain_aux L deltas st hδ hst⟩

theorem tube_unwrapped_monotone_witness :
    (∀ (d : ℚ) (s : TubeState),
      unwrapped (tubeFrame (27/2) d s) - unwrapped s =
        (s.scrollTarget + d - s.scrollCurrent) * (12/100)) ∧
    (∀ (d : ℚ) (s : TubeState),
      (tubeFrame (27/2) d s).scrollTarget - (tubeFrame (27/2) d s).scrollCurrent =
        (s.scrollTarget + d - s.scrollCurrent) * (88/100)) ∧
    List.Chain' (· ≤ ·)
      (List.map unwrapped
        (List.scanl (fun s d => tubeFrame (27/2) d s) ⟨0, 0, 0⟩ [1, 2])) :=
  tube_unwrapped_monotone (27/2) [1, 2] ⟨0, 0, 0⟩
    (by intro d hd; fin_cases hd <;> norm_num) (by norm_num)

/-- The per-frame exponential decay factor applied to the tube spin velocity
(useFrame: spinVelocityRef.current *= Math.pow(0.92, dt * 60)). -/
noncomputable def spinDecayFactor (dt : ℝ) : ℝ :=
  (92/100 : ℝ) ^ (dt * 60)

/-- One frame of the spin-velocity update: exponential decay followed by the
clamp to [-2, 2] (Math.max(-2.0, Math.min(2.0, v))). -/
noncomputable def spinStep (v dt : ℝ) : ℝ :=
  max (-2) (min 2 (v * spinDecayFactor dt))

/-- C4: the spin-velocity decay factor over two consecutive frames of elapsed
times d1 and d2 equals the factor over a single frame of elapsed time
d1 + d2 (frame-rate-independent exponential decay), and after the clamp the
spin velocity always lies in [-2, 2]. -/
theorem spin_decay_additive_and_clamped :
    (∀ d1 d2 : ℝ, spinDecayFactor d1 * spinDecayFactor d2 = spinDecayFactor (d1 + d2)) ∧
    (∀ v dt : ℝ, -2 ≤ spinStep v dt ∧ spinStep v dt ≤ 2) := by
  constructor
  · intro d1 d2
    unfold spinDecayFactor
    rw [← Real.rpow_add (by norm_num)]
    congr 1
    ring
  · intro v dt
    unfold spinStep
    exact ⟨le_max_left _ _, max_le (by norm_num) (min_le_left _ _)⟩

/-- Playback-relevant state of one HTMLAudioElement clip. -/
structure Clip where
  currentTime : ℚ
  paused : Bool
  volume : ℚ
deriving DecidableEq

/-- An audio pool from GlobalClickSound.tsx: a round-robin cursor and the
pre-allocated clips. -/
structure AudioPool where
  nextIndex : ℕ
  clips : List Clip
deriving DecidableEq

/-- makeAudioPool: poolSize pre-allocated clips at the given volume, cursor
at index 0. (The url only selects the asset; it carries no state.) -/
def makeAudioPool (poolSize : ℕ) (volume : ℚ) : AudioPool :=
  { nextIndex := 0,
    clips := List.replicate poolSize { currentTime := 0, paused := true, volume := volume } }

/-- Playing the next clip of a pool: read the clip at the cursor, advance the
cursor modulo the pool size, rewind the clip and start it. -/
def poolPlay (p : AudioPool) : AudioPool :=
  { nextIndex := (p.nextIndex + 1) % p.clips.length,
    clips :=
      if h : p.nextIndex < p.clips.length then
        p.clips.set p.nextIndex { p.clips[p.nextIndex] with currentTime := 0, paused := false }
      else p.clips }

/-- Playback state of the looping scroll sound element. -/
structure ScrollSnd where
  paused : Bool
  currentTime : ℚ
  volume : ℚ
  playbackRate : ℚ
deriving DecidableEq

/-- The mutable state of the GlobalClickSound component: the refs, the click
pools, the scroll sound element, the tick closure's last-frame timestamp, and
a ghost counter of click playback invocations. -/
structure SoundState where
  lastPointerDownAt : ℚ
  clickPools : List AudioPool
  scrollSnd : ScrollSnd
  lastWheelAt : ℚ
  wheelIntensity : ℚ
  scrollTargetRate : ℚ
  scrollCurrentRate : ℚ
  scrollTargetVol : ℚ
  scrollCurrentVol : ℚ
  lastRafAt : ℚ
  plays : ℕ
deriving DecidableEq

/-- The state right after the component's setup effect: two click pools of
four clips at volume 0.35, the scroll sound paused at volume 0 and rate 1,
and all refs at their initial values. -/
def initSound : SoundState :=
  { lastPointerDownAt := 0
    clickPools := [makeAudioPool 4 (35/100), makeAudioPool 4 (35/100)]
    scrollSnd := { paused := true, currentTime := 0, volume := 0, playbackRate := 1 }
    lastWheelAt := 0
    wheelIntensity := 0
    scrollTargetRate := 1
    scrollCurrentRate := 1
    scrollTargetVol := 0
    scrollCurrentVol := 0
    lastRafAt := 0
    plays := 0 }

/-- The onPointerDown handler: ignore non-primary buttons; suppress events
within 25ms of the previous dispatch; otherwise record the dispatch time and
play the next clip of the pool selected by the random draw `r`. -/
def onPointerDown (button : ℤ) (now : ℚ) (r : ℕ) (s : SoundState) : SoundState :=
  if button ≠ 0 then s
  else if now - s.lastPointerDownAt < 25 then s
  else
    let s1 := { s with lastPointerDownAt := now }
    if s1.clickPools.length = 0 then s1
    else
      { s1 with
        clickPools :=
          if h : r < s1.clickPools.length then
            s1.clickPools.set r (poolPlay s1.clickPools[r])
          else s1.clickPools,
        plays := s1.plays + 1 }

/-- The onWheel handler: clamp the inter-wheel elapsed time into
[0.001, 0.05] seconds, move the intensity accumulator toward the clamped
wheel delta magnitude at rate 900/s, and set the rate/volume targets as
linear images of the normalized intensity; unpause the scroll sound. -/
def onWheel (now deltaY : ℚ) (s : SoundState) : SoundState :=
  let dtWheel := min (5/100) (max (1/1000) ((now - s.lastWheelAt) / 1000))
  let wi := approach s.wheelIntensity (min 220 |deltaY|) (900 * dtWheel)
  let normalized := min 1 (wi / 120)
  { s with
    lastWheelAt := now
    wheelIntensity := wi
    scrollTargetRate := 1 + normalized * (55/100)
    scrollTargetVol := normalized * (32/100)
    scrollSnd :=
      if s.scrollSnd.paused then { s.scrollSnd with paused := false }
      else s.scrollSnd }

/-- One animation-frame tick: compute dt (clamped at 0.05s), decay the
targets once more than 90ms have passed since the last wheel event, ease the
current rate/volume toward the targets at fixed speeds, push them to the
sound element, and pause/rewind it once more than 220ms have passed and the
volume is below 0.01. -/
def tick (now : ℚ) (s : SoundState) : SoundState :=
  let dt := min (5/100) ((now - s.lastRafAt) / 1000)
  let sinceWheel := now - s.lastWheelAt
  let tv := if sinceWheel > 90 then max 0 (s.scrollTargetVol - (9/10) * dt)
            else s.scrollTargetVol
  let tr := if sinceWheel > 90 then approach s.scrollTargetRate 1 ((12/10) * dt)
            else s.scrollTargetRate
  let cr := approach s.scrollCurrentRate tr (3 * dt)
  let cv := approach s.scrollCurrentVol tv (2 * dt)
  let snd0 := { s.scrollSnd with playbackRate := cr, volume := cv }
  let snd := if sinceWheel > 220 ∧ cv < 1/100
             then { snd0 with paused := true, currentTime := 0 }
             else snd0
  { s with lastRafAt := now, scrollTargetVol := tv, scrollTargetRate := tr,
           scrollCurrentRate := cr, scrollCurrentVol := cv, scrollSnd := snd }

lemma onPointerDown_nonzero_button (button : ℤ) (now : ℚ) (r : ℕ) (s : SoundState)
    (hb : button ≠ 0) :
    onPointerDown button now r s = s := by
  simp [onPointerDown, hb]

/-- C9: a pointer-down whose button index is not 0 leaves the whole handler
state unchanged (pool cursors, last-dispatch timestamp, scroll-audio
targets, play count). -/
theorem non_primary_pointer_noop (button : ℤ) (now : ℚ) (r : ℕ) (s : SoundState)
    (hb : button ≠ 0) :
    onPointerDown button now r s = s :=
  onPointerDown_nonzero_button button now r s hb

theorem non_primary_pointer_noop_witness :
    onPointerDown 2 100 0 initSound = initSound :=
  non_primary_pointer_noop 2 100 0 initSound (by decide)

lemma poolPlay_length (p : AudioPool) : (poolPlay p).clips.length = p.clips.length := by
  unfold poolPlay
  dsimp only
  split_ifs with h
  · exact List.length_set p.clips _ _
  · rfl

lemma poolPlay_iterate (K N : ℕ) (vol : ℚ) (hK : 0 < K) :
    (poolPlay^[N] (makeAudioPool K vol)).nextIndex = N % K ∧
    (poolPlay^[N] (makeAudioPool K vol)).clips.length = K := by
  induction N with
  | zero => simp [makeAudioPool]
  | succ N ih =>
      rw [Function.iterate_succ_apply']
      obtain ⟨hidx, hlen⟩ := ih
      constructor
      · show ((poolPlay^[N] (makeAudioPool K vol)).nextIndex + 1) %
            (poolPlay^[N] (makeAudioPool K vol)).clips.length = (N + 1) % K
        rw [hidx, hlen]
        have h1 := Nat.add_mod N 1 K
        have h2 := Nat.add_mod (N % K) 1 K
        have h3 : N % K % K = N % K := Nat.mod_mod_of_dvd N dvd_rfl
        rw [h2, h3, ← h1]
      · rw [poolPlay_length, hlen]

/-- C6: starting from a fresh pool of size K, after N plays the round-robin
cursor equals N mod K, stays below K, and the clip list is never extended
(its length stays K). -/
theorem pool_cursor_mod (K N : ℕ) (vol : ℚ) (hK : 0 < K) :
    (poolPlay^[N] (makeAudioPool K vol)).nextIndex = N % K ∧
    (poolPlay^[N] (makeAudioPool K vol)).nextIndex < K ∧
    (poolPlay^[N] (makeAudioPool K vol)).clips.length = K := by
  obtain ⟨hidx, hlen⟩ := poolPlay_iterate K N vol hK
  exact ⟨hidx, hidx ▸ Nat.mod_lt N hK, hlen⟩

theorem pool_cursor_mod_witness :
    (poolPlay^[7] (makeAudioPool 4 (35/100))).nextIndex = 7 % 4 ∧
    (poolPlay^[7] (makeAudioPool 4 (35/100))).nextIndex < 4 ∧
    (poolPlay^[7] (makeAudioPool 4 (35/100))).clips.length = 4 :=
  pool_cursor_mod 4 7 (35/100) (by norm_num)

lemma onPointerDown_suppressed (b : ℤ) (t : ℚ) (r : ℕ) (s : SoundState)
    (h : t - s.lastPointerDownAt < 25) :
    onPointerDown b t r s = s := by
  unfold onPointerDown
  by_cases hb : b = 0
  · simp [hb, h]
  · simp [hb]

lemma onPointerDown_play (t : ℚ) (r : ℕ) (s : SoundState)
    (hsup : ¬ (t - s.lastPointerDownAt < 25)) (hp : s.clickPools.length ≠ 0) :
    (onPointerDown 0 t r s).plays = s.plays + 1 ∧
    (onPointerDown 0 t r s).lastPointerDownAt = t := by
  unfold onPointerDown
  simp [hsup, hp]

lemma onPointerDown_no_pools (t : ℚ) (r : ℕ) (s : SoundState)
    (hsup : ¬ (t - s.lastPointerDownAt < 25)) (hp : s.clickPools.length = 0) :
    onPointerDown 0 t r s = { s with lastPointerDownAt := t } := by
  unfold onPointerDown
  simp [hsup, hp]

lemma onPointerDown_plays_le (b : ℤ) (t : ℚ) (r : ℕ) (s : SoundState) :
    (onPointerDown b t r s).plays ≤ s.plays + 1 := by
  unfold onPointerDown
  dsimp only
  split_ifs <;> simp

/-- C5 counterexample: from the component's initial state (previous-dispatch
timestamp 0), two primary-button pointer-downs at 10ms and 20ms are both
inside the 25ms suppression window, so the pair produces zero playback
invocations rather than exactly one. -/
theorem double_click_both_suppressed :
    (onPointerDown 0 20 0 (onPointerDown 0 10 0 initSound)).plays = 0 ∧
    (20 : ℚ) - 10 < 25 := by
  constructor
  · have h1 : onPointerDown 0 10 0 initSound = initSound :=
      onPointerDown_suppressed 0 10 0 initSound (by norm_num [initSound])
    have h2 : onPointerDown 0 20 0 initSound = initSound :=
      onPointerDown_suppressed 0 20 0 initSound (by norm_num [initSound])
    rw [h1, h2]
    rfl
  · norm_num

/-- C5 (amended): two primary pointer-downs less than 25ms apart produce at
most one playback invocation, and exactly one when the first of them occurs
at least 25ms after the previous dispatch (with the pools initialized). -/
theorem click_suppression_at_most_one (s : SoundState) (t1 t2 : ℚ) (b2 : ℤ) (r1 r2 : ℕ)
    (hlt : t2 - t1 < 25) :
    (∀ b1 : ℤ, (onPointerDown b2 t2 r2 (onPointerDown b1 t1 r1 s)).plays ≤ s.plays + 1) ∧
    (25 ≤ t1 - s.lastPointerDownAt → s.clickPools.length ≠ 0 →
      (onPointerDown b2 t2 r2 (onPointerDown 0 t1 r1 s)).plays = s.plays + 1) := by
  constructor
  · intro b1
    by_cases hb1 : b1 = 0
    · subst hb1
      by_cases hsup : t1 - s.lastPointerDownAt < 25
      · rw [onPointerDown_suppressed 0 t1 r1 s hsup]
        exact onPointerDown_plays_le b2 t2 r2 s
      · by_cases hp : s.clickPools.length = 0
        · rw [onPointerDown_no_pools t1 r1 s hsup hp]
          exact onPointerDown_plays_le b2 t2 r2 _
        · obtain ⟨hplays, hlast⟩ := onPointerDown_play t1 r1 s hsup hp
          rw [onPointerDown_suppressed b2 t2 r2 _ (by rw [hlast]; linarith), hplays]
    · rw [onPointerDown_nonzero_button b1 t1 r1 s hb1]
      exact onPointerDown_plays_le b2 t2 r2 s
  · intro hfirst hp
    obtain ⟨hplays, hlast⟩ := onPointerDown_play t1 r1 s (by linarith) hp
    rw [onPointerDown_suppressed b2 t2 r2 _ (by rw [hlast]; linarith), hplays]

theorem click_suppression_at_most_one_witness :
    (∀ b1 : ℤ, (onPointerDown 0 40 1 (onPointerDown b1 30 0 initSound)).plays ≤
      initSound.plays + 1) ∧
    (25 ≤ (30 : ℚ) - initSound.lastPointerDownAt → initSound.clickPools.length ≠ 0 →
      (onPointerDown 0 40 1 (onPointerDown 0 30 0 initSound)).plays =
        initSound.plays + 1) :=
  click_suppression_at_most_one initSound 30 40 0 0 1 (by norm_num)

/-- C8: preserving the intensity invariant 0 ≤ intensity ≤ 220, a wheel event
leaves the intensity in [0, 220], the normalized intensity in [0, 1], sets
the rate and volume targets to the linear images 1 + 0.55n and 0.32n of the
normalized intensity n, and those targets lie in [1, 1.55] and [0, 0.32]. -/
theorem wheel_targets_bounded (s : SoundState) (now deltaY : ℚ)
    (h0 : 0 ≤ s.wheelIntensity) (h220 : s.wheelIntensity ≤ 220) :
    (0 ≤ (onWheel now deltaY s).wheelIntensity ∧
      (onWheel now deltaY s).wheelIntensity ≤ 220) ∧
    (0 ≤ min 1 ((onWheel now deltaY s).wheelIntensity / 120) ∧
      min 1 ((onWheel now deltaY s).wheelIntensity / 120) ≤ 1) ∧
    (onWheel now deltaY s).scrollTargetRate =
      1 + min 1 ((onWheel now deltaY s).wheelIntensity / 120) * (55/100) ∧
    (onWheel now deltaY s).scrollTargetVol =
      min 1 ((onWheel now deltaY s).wheelIntensity / 120) * (32/100) ∧
    (1 ≤ (onWheel now deltaY s).scrollTargetRate ∧
      (onWheel now deltaY s).scrollTargetRate ≤ 155/100) ∧
    (0 ≤ (onWheel now deltaY s).scrollTargetVol ∧
      (onWheel now deltaY s).scrollTargetVol ≤ 32/100) := by
  have hdt : (0:ℚ) ≤ 900 * min (5/100) (max (1/1000) ((now - s.lastWheelAt) / 1000)) := by
    have h : (1/1000 : ℚ) ≤ min (5/100) (max (1/1000) ((now - s.lastWheelAt) / 1000)) :=
      le_min (by norm_num) (le_max_left _ _)
    linarith
  have hcl0 : (0:ℚ) ≤ min 220 |deltaY| := le_min (by norm_num) (abs_nonneg _)
  have hcl220 : min (220:ℚ) |deltaY| ≤ 220 := min_le_left _ _
  have hwi0 : 0 ≤ approach s.wheelIntensity (min 220 |deltaY|)
      (900 * min (5/100) (max (1/1000) ((now - s.lastWheelAt) / 1000))) :=
    approach_nonneg _ _ _ h0 hcl0 hdt
  have hwi220 : approach s.wheelIntensity (min 220 |deltaY|)
      (900 * min (5/100) (max (1/1000) ((now - s.lastWheelAt) / 1000))) ≤ 220 :=
    approach_le_of_le _ _ _ _ h220 hcl220 hdt
  unfold onWheel
  dsimp only
  refine ⟨⟨hwi0, hwi220⟩, ⟨le_min (by norm_num) (by positivity), min_le_left _ _⟩,
    rfl, rfl, ⟨?_, ?_⟩, ⟨?_, ?_⟩⟩
  · have h := le_min zero_le_one (by positivity :
      (0:ℚ) ≤ approach s.wheelIntensity (min 220 |deltaY|)
        (900 * min (5/100) (max (1/1000) ((now - s.lastWheelAt) / 1000))) / 120)
    nlinarith [h]
  · have h := min_le_left (1:ℚ) (approach s.wheelIntensity (min 220 |deltaY|)
      (900 * min (5/100) (max (1/1000) ((now - s.lastWheelAt) / 1000))) / 120)
    nlinarith [h]
  · have h := le_min zero_le_one (by positivity :
      (0:ℚ) ≤ approach s.wheelIntensity (min 220 |deltaY|)
        (900 * min (5/100) (max (1/1000) ((now - s.lastWheelAt) / 1000))) / 120)
    nlinarith [h]
  · have h := min_le_left (1:ℚ) (approach s.wheelIntensity (min 220 |deltaY|)
      (900 * min (5/100) (max (1/1000) ((now - s.lastWheelAt) / 1000))) / 120)
    nlinarith [h]

theorem wheel_targets_bounded_witness :
    (0 ≤ (onWheel 100 50 initSound).wheelIntensity ∧
      (onWheel 100 50 initSound).wheelIntensity ≤ 220) ∧
    (0 ≤ min 1 ((onWheel 100 50 initSound).wheelIntensity / 120) ∧
      min 1 ((onWheel 100 50 initSound).wheelIntensity / 120) ≤ 1) ∧
    (onWheel 100 50 initSound).scrollTargetRate =
      1 + min 1 ((onWheel 100 50 initSound).wheelIntensity / 120) * (55/100) ∧
    (onWheel 100 50 initSound).scrollTargetVol =
      min 1 ((onWheel 100 50 initSound).wheelIntensity / 120) * (32/100) ∧
    (1 ≤ (onWheel 100 50 initSound).scrollTargetRate ∧
      (onWheel 100 50 initSound).scrollTargetRate ≤ 155/100) ∧
    (0 ≤ (onWheel 100 50 initSound).scrollTargetVol ∧
      (onWheel 100 50 initSound).scrollTargetVol ≤ 32/100) :=
  wheel_targets_bounded initSound 100 50 (by norm_num [initSound]) (by norm_num [initSound])

/-- The onPointerMove handler's focus-target update: with a degenerate rect
the previous target is kept; otherwise the normalized pointer position is
clamped to [0,1], the y axis flipped, the result compressed about (0.5, 0.5)
by the factor 0.4, and clamped to [0,1] again. -/
def pointerMoveTarget (clientX clientY left top width height : ℚ)
    (prev : ℚ × ℚ) : ℚ × ℚ :=
  if width ≤ 0 ∨ height ≤ 0 then prev
  else
    let nx := (clientX - left) / width
    let ny := (clientY - top) / height
    let clampedX := min 1 (max 0 nx)
    let clampedY := min 1 (max 0 ny)
    let uvX := clampedX
    let uvY := 1 - clampedY
    let cx := 1/2 + (uvX - 1/2) * (4/10)
    let cy := 1/2 + (uvY - 1/2) * (4/10)
    (min 1 (max 0 cx), min 1 (max 0 cy))

/-- The onPointerLeave handler resets the focus target to (0.5, 0.5). -/
def pointerLeaveTarget : ℚ × ℚ := (1/2, 1/2)

/-- The initial value of the uCenter shader uniform. -/
def uCenterInit : ℚ × ℚ := (1/2, 1/2)

/-- The GridPlane per-frame update of the uCenter uniform:
Vector2.lerp toward the focus target with the fixed 0.08 blend factor. -/
def lerpCenter (c target : ℚ × ℚ) : ℚ × ℚ :=
  (c.1 + (target.1 - c.1) * (8/100), c.2 + (target.2 - c.2) * (8/100))

/-- The square [0.3, 0.7] x [0.3, 0.7] of the focus invariant. -/
def inFocusBox (p : ℚ × ℚ) : Prop :=
  3/10 ≤ p.1 ∧ p.1 ≤ 7/10 ∧ 3/10 ≤ p.2 ∧ p.2 ≤ 7/10

lemma clamp01_compress_mem (u : ℚ) (h0 : 0 ≤ u) (h1 : u ≤ 1) :
    3/10 ≤ min 1 (max 0 (1/2 + (u - 1/2) * (4/10))) ∧
    min 1 (max 0 (1/2 + (u - 1/2) * (4/10))) ≤ 7/10 := by
  have hcx0 : (3/10:ℚ) ≤ 1/2 + (u - 1/2) * (4/10) := by linarith
  have hcx1 : 1/2 + (u - 1/2) * (4/10) ≤ (7/10:ℚ) := by linarith
  rw [max_eq_right (by linarith), min_eq_right (by linarith)]
  exact ⟨hcx0, hcx1⟩

/-- C10: pointer-move always produces a focus target inside
[0.3, 0.7] x [0.3, 0.7] (keeping a previous in-box target when the rect is
degenerate), pointer-leave resets it inside the box, the uCenter uniform
starts inside the box, and the per-frame 0.08 lerp toward an in-box target
keeps uCenter inside the box. -/
theorem focus_center_stays_in_box :
    (∀ (clientX clientY left top width height : ℚ) (prev : ℚ × ℚ),
      inFocusBox prev →
      inFocusBox (pointerMoveTarget clientX clientY left top width height prev)) ∧
    inFocusBox pointerLeaveTarget ∧
    inFocusBox uCenterInit ∧
    (∀ c t : ℚ × ℚ, inFocusBox c → inFocusBox t → inFocusBox (lerpCenter c t)) := by
  refine ⟨?_, ?_, ?_, ?_⟩
  · intro clientX clientY left top width height prev hprev
    unfold pointerMoveTarget
    split_ifs with h
    · exact hprev
    · have hx0 : (0:ℚ) ≤ min 1 (max 0 ((clientX - left) / width)) :=
        le_min (by norm_num) (le_max_left _ _)
      have hx1 : min 1 (max 0 ((clientX - left) / width)) ≤ 1 := min_le_left _ _
      have hy0 : (0:ℚ) ≤ min 1 (max 0 ((clientY - top) / height)) :=
        le_min (by norm_num) (le_max_left _ _)
      have hy1 : min 1 (max 0 ((clientY - top) / height)) ≤ 1 := min_le_left _ _
      obtain ⟨ha, hb⟩ := clamp01_compress_mem (min 1 (max 0 ((clientX - left) / width))) hx0 hx1
      obtain ⟨hc, hd2⟩ := clamp01_compress_mem
        (1 - min 1 (max 0 ((clientY - top) / height))) (by linarith) (by linarith)
      exact ⟨ha, hb, hc, hd2⟩
  · exact ⟨by norm_num [pointerLeaveTarget], by norm_num [pointerLeaveTarget],
      by norm_num [pointerLeaveTarget], by norm_num [pointerLeaveTarget]⟩
  · exact ⟨by norm_num [uCenterInit], by norm_num [uCenterInit],
      by norm_num [uCenterInit], by norm_num [uCenterInit]⟩
  · intro c t hc ht
    obtain ⟨hc1, hc2, hc3, hc4⟩ := hc
    obtain ⟨ht1, ht2, ht3, ht4⟩ := ht
    exact ⟨by dsimp [lerpCenter]; linarith, by dsimp [lerpCenter]; linarith,
      by dsimp [lerpCenter]; linarith, by dsimp [lerpCenter]; linarith⟩

theorem focus_center_stays_in_box_witness :
    inFocusBox (pointerMoveTarget 1 1 0 0 2 2 (1/2, 1/2)) ∧
    inFocusBox (lerpCenter (1/2, 1/2) (3/10, 7/10)) :=
  ⟨focus_center_stays_in_box.1 1 1 0 0 2 2 (1/2, 1/2)
      (by exact ⟨by norm_num, by norm_num, by norm_num, by norm_num⟩),
   focus_center_stays_in_box.2.2.2 (1/2, 1/2) (3/10, 7/10)
      (by exact ⟨by norm_num, by norm_num, by norm_num, by norm_num⟩)
      (by exact ⟨by norm_num, by norm_num, by norm_num, by norm_num⟩)⟩

lemma tick_lastWheelAt (now : ℚ) (s : SoundState) :
    (tick now s).lastWheelAt = s.lastWheelAt := rfl

lemma tick_lastRafAt (now : ℚ) (s : SoundState) :
    (tick now s).lastRafAt = now := rfl

lemma tick_scrollCurrentVol (now : ℚ) (s : SoundState) :
    (tick now s).scrollCurrentVol =
      approach s.scrollCurrentVol (tick now s).scrollTargetVol
        (2 * min (5/100) ((now - s.lastRafAt) / 1000)) := rfl

lemma tick_scrollTargetVol (now : ℚ) (s : SoundState) (h90 : 90 < now - s.lastWheelAt) :
    (tick now s).scrollTargetVol =
      max 0 (s.scrollTargetVol - (9/10) * min (5/100) ((now - s.lastRafAt) / 1000)) := by
  show (if 90 < now - s.lastWheelAt then
      max 0 (s.scrollTargetVol - (9/10) * min (5/100) ((now - s.lastRafAt) / 1000))
    else s.scrollTargetVol) = _
  rw [if_pos h90]

lemma tick_scrollTargetVol_nonneg (now : ℚ) (s : SoundState)
    (h90 : 90 < now - s.lastWheelAt) :
    0 ≤ (tick now s).scrollTargetVol := by
  rw [tick_scrollTargetVol now s h90]
  exact le_max_left _ _

lemma tick_pauses (now : ℚ) (s : SoundState) (h220 : 220 < now - s.lastWheelAt)
    (hcv : (tick now s).scrollCurrentVol < 1/100) :
    (tick now s).scrollSnd.paused = true ∧ (tick now s).scrollSnd.currentTime = 0 := by
  have hcv' : approach s.scrollCurrentVol
      (if 90 < now - s.lastWheelAt then
        max 0 (s.scrollTargetVol - (9/10) * min (5/100) ((now - s.lastRafAt) / 1000))
      else s.scrollTargetVol)
      (2 * min (5/100) ((now - s.lastRafAt) / 1000)) < 1/100 := hcv
  unfold tick
  dsimp only
  split_ifs with h1 h2
  · exact ⟨rfl, rfl⟩
  · rw [if_pos h1] at hcv'
    exact absurd ⟨h220, hcv'⟩ h2
  · exact absurd (by linarith : (90:ℚ) < now - s.lastWheelAt) h1
  · exact absurd (by linarith : (90:ℚ) < now - s.lastWheelAt) h1

/-- The tick callback fired on the uniform schedule t0, t0 + h, t0 + 2h, ...:
tickSeq t0 h s n is the component state after the first n ticks. -/
def tickSeq (t0 h : ℚ) (s : SoundState) : ℕ → SoundState
  | 0 => s
  | n + 1 => tick (t0 + (n : ℚ) * h) (tickSeq t0 h s n)

lemma tickSeq_succ (t0 h : ℚ) (s : SoundState) (n : ℕ) :
    tickSeq t0 h s (n + 1) = tick (t0 + (n : ℚ) * h) (tickSeq t0 h s n) := rfl

lemma tickSeq_lastWheelAt (t0 h : ℚ) (s : SoundState) (m : ℕ) :
    (tickSeq t0 h s m).lastWheelAt = s.lastWheelAt := by
  induction m with
  | zero => rfl
  | succ m ih => rw [tickSeq_succ, tick_lastWheelAt, ih]

lemma tickSeq_lastRafAt (t0 h : ℚ) (s : SoundState) (k : ℕ) :
    (tickSeq t0 h s (k + 1)).lastRafAt = t0 + (k : ℚ) * h := by
  rw [tickSeq_succ, tick_lastRafAt]

lemma tickSeq_invariant (s : SoundState) (t0 h : ℚ) (hh : 0 < h)
    (hraf : s.lastRafAt ≤ t0) (hcv : 0 ≤ s.scrollCurrentVol)
    (hidle : s.lastWheelAt + 220 < t0) (k : ℕ) :
    0 ≤ (tickSeq t0 h s (k + 1)).scrollCurrentVol ∧
    0 ≤ (tickSeq t0 h s (k + 1)).scrollTargetVol ∧
    (tickSeq t0 h s (k + 1)).scrollTargetVol ≤
      max 0 ((tickSeq t0 h s 1).scrollTargetVol -
        (9/10) * min (5/100) (h / 1000) * (k : ℚ)) ∧
    (tickSeq t0 h s (k + 1)).scrollCurrentVol ≤
      max (tickSeq t0 h s (k + 1)).scrollTargetVol
        ((tickSeq t0 h s 1).scrollCurrentVol -
          2 * min (5/100) (h / 1000) * (k : ℚ)) := by
  have hd0 : (0:ℚ) ≤ min (5/100) (h / 1000) :=
    le_min (by norm_num) (by positivity)
  induction k with
  | zero =>
      have h90 : (90:ℚ) < (t0 + (0 : ℚ) * h) - s.lastWheelAt := by
        push_cast
        linarith
      have hdt0 : (0:ℚ) ≤ min (5/100) (((t0 + (0 : ℚ) * h) - s.lastRafAt) / 1000) := by
        apply le_min (by norm_num)
        apply div_nonneg _ (by norm_num)
        linarith
      have htv0 : 0 ≤ (tickSeq t0 h s 1).scrollTargetVol := by
        rw [tickSeq_succ]
        push_cast
        exact tick_scrollTargetVol_nonneg _ s (by push_cast at h90 ⊢; linarith)
      refine ⟨?_, htv0, ?_, ?_⟩
      · rw [tickSeq_succ, tick_scrollCurrentVol]
        apply approach_nonneg _ _ _ hcv
        · rw [← tickSeq_succ]
          exact htv0
        · have h00 : (tickSeq t0 h s 0).lastRafAt = s.lastRafAt := rfl
          apply mul_nonneg (by norm_num)
          apply le_min (by norm_num)
          apply div_nonneg _ (by norm_num)
          rw [h00]
          push_cast
          linarith
      · push_cast
        simpa using le_max_right (0:ℚ) ((tickSeq t0 h s 1).scrollTargetVol)
      · push_cast
        simpa using le_max_right ((tickSeq t0 h s 1).scrollTargetVol)
          ((tickSeq t0 h s 1).scrollCurrentVol)
  | succ k ih =>
      obtain ⟨ihc, ihd, ihe, ihf⟩ := ih
      have hwheel : (tickSeq t0 h s (k + 1)).lastWheelAt = s.lastWheelAt :=
        tickSeq_lastWheelAt t0 h s (k + 1)
      have hkh : (0:ℚ) ≤ (k + 1 : ℚ) * h := by positivity
      have h220 : 220 < (t0 + ((k + 1 : ℕ) : ℚ) * h) -
          (tickSeq t0 h s (k + 1)).lastWheelAt := by
        rw [hwheel]
        push_cast
        nlinarith
      have h90 : 90 < (t0 + ((k + 1 : ℕ) : ℚ) * h) -
          (tickSeq t0 h s (k + 1)).lastWheelAt := by linarith
      have hdt : (t0 + ((k + 1 : ℕ) : ℚ) * h) - (tickSeq t0 h s (k + 1)).lastRafAt = h := by
        rw [tickSeq_lastRafAt]
        push_cast
        ring
      have htv2 : (tickSeq t0 h s (k + 2)).scrollTargetVol =
          max 0 ((tickSeq t0 h s (k + 1)).scrollTargetVol -
            (9/10) * min (5/100) (h / 1000)) := by
        rw [tickSeq_succ _ _ _ (k + 1), tick_scrollTargetVol _ _ h90, hdt]
      have hcv2 : (tickSeq t0 h s (k + 2)).scrollCurrentVol =
          approach (tickSeq t0 h s (k + 1)).scrollCurrentVol
            (tickSeq t0 h s (k + 2)).scrollTargetVol
            (2 * min (5/100) (h / 1000)) := by
        rw [tickSeq_succ _ _ _ (k + 1), tick_scrollCurrentVol, hdt,
          ← tickSeq_succ _ _ _ (k + 1)]
      have htv2nn : 0 ≤ (tickSeq t0 h s (k + 2)).scrollTargetVol := by
        rw [htv2]
        exact le_max_left _ _
      refine ⟨?_, htv2nn, ?_, ?_⟩
      · rw [hcv2]
        exact approach_nonneg _ _ _ ihc htv2nn (by linarith)
      · rw [htv2]
        apply max_le (le_max_left _ _)
        rcases le_or_lt ((tickSeq t0 h s 1).scrollTargetVol -
            (9/10) * min (5/100) (h / 1000) * (k : ℚ)) 0 with hA | hA
        · have h0 : (tickSeq t0 h s (k + 1)).scrollTargetVol ≤ 0 := by
            rw [max_eq_left hA] at ihe
            exact ihe
          refine le_trans ?_ (le_max_left _ _)
          nlinarith
        · have h1 : (tickSeq t0 h s (k + 1)).scrollTargetVol ≤
              (tickSeq t0 h s 1).scrollTargetVol -
                (9/10) * min (5/100) (h / 1000) * (k : ℚ) := by
            rw [max_eq_right hA.le] at ihe
            exact ihe
          refine le_trans ?_ (le_max_right _ _)
          push_cast
          nlinarith
      · rw [hcv2]
        refine le_trans (approach_le_max_target_sub _ _ _ (by linarith)) ?_
        apply max_le (le_max_left _ _)
        rcases le_max_iff.mp ihf with hcase | hcase
        · refine le_trans ?_ (le_max_left _ _)
          rw [htv2]
          refine le_trans ?_ (le_max_right 0 _)
          nlinarith
        · refine le_trans ?_ (le_max_right _ _)
          push_cast
          nlinarith

/-- C7: on any tick taken more than 220ms after the last wheel event and
leaving the eased volume below 0.01, the scroll clip is paused and rewound
to position 0; and in the absence of further wheel events, a uniform
schedule of ticks starting past the 220ms threshold drives the eased volume
to exactly zero, after which the clip stays paused and rewound. -/
theorem scroll_sound_idle_silences (s : SoundState) (t0 h : ℚ)
    (hh : 0 < h) (hraf : s.lastRafAt ≤ t0) (hcv : 0 ≤ s.scrollCurrentVol)
    (hidle : s.lastWheelAt + 220 < t0) :
    (∀ (s' : SoundState) (now : ℚ), 220 < now - s'.lastWheelAt →
      (tick now s').scrollCurrentVol < 1/100 →
      (tick now s').scrollSnd.paused = true ∧
      (tick now s').scrollSnd.currentTime = 0) ∧
    ∃ N : ℕ, ∀ n : ℕ, N ≤ n →
      (tickSeq t0 h s n).scrollCurrentVol = 0 ∧
      (tickSeq t0 h s n).scrollSnd.paused = true ∧
      (tickSeq t0 h s n).scrollSnd.currentTime = 0 := by
  constructor
  · intro s' now h220 hlt
    exact tick_pauses now s' h220 hlt
  · have hd : (0:ℚ) < min (5/100) (h / 1000) :=
      lt_min (by norm_num) (by positivity)
    refine ⟨max (Nat.ceil ((tickSeq t0 h s 1).scrollTargetVol /
        ((9/10) * min (5/100) (h / 1000))))
      (Nat.ceil ((tickSeq t0 h s 1).scrollCurrentVol /
        (2 * min (5/100) (h / 1000)))) + 1, fun n hn => ?_⟩
    obtain ⟨k, rfl⟩ : ∃ k, n = k + 1 := ⟨n - 1, by omega⟩
    have hmax : max (Nat.ceil ((tickSeq t0 h s 1).scrollTargetVol /
        ((9/10) * min (5/100) (h / 1000))))
      (Nat.ceil ((tickSeq t0 h s 1).scrollCurrentVol /
        (2 * min (5/100) (h / 1000)))) ≤ k := by omega
    have hk1 := le_trans (le_max_left _ _) hmax
    have hk2 := le_trans (le_max_right _ _) hmax
    have hkq1 : (tickSeq t0 h s 1).scrollTargetVol /
        ((9/10) * min (5/100) (h / 1000)) ≤ (k : ℚ) :=
      le_trans (Nat.le_ceil _) (by exact_mod_cast hk1)
    have hkq2 : (tickSeq t0 h s 1).scrollCurrentVol /
        (2 * min (5/100) (h / 1000)) ≤ (k : ℚ) :=
      le_trans (Nat.le_ceil _) (by exact_mod_cast hk2)
    have htvk : (tickSeq t0 h s 1).scrollTargetVol ≤
        (9/10) * min (5/100) (h / 1000) * (k : ℚ) := by
      rw [div_le_iff₀ (mul_pos (by norm_num) hd)] at hkq1
      linarith
    have hcvk : (tickSeq t0 h s 1).scrollCurrentVol ≤
        2 * min (5/100) (h / 1000) * (k : ℚ) := by
      rw [div_le_iff₀ (mul_pos (by norm_num) hd)] at hkq2
      linarith
    obtain ⟨hc, hdnn, he, hf⟩ := tickSeq_invariant s t0 h hh hraf hcv hidle k
    have htv0 : (tickSeq t0 h s (k + 1)).scrollTargetVol = 0 :=
      le_antisymm (le_trans he (le_of_eq (max_eq_left (by linarith)))) hdnn
    have hcv0 : (tickSeq t0 h s (k + 1)).scrollCurrentVol = 0 := by
      refine le_antisymm (le_trans hf ?_) hc
      rw [htv0]
      exact le_of_eq (max_eq_left (by linarith))
    have hwheel : (tickSeq t0 h s k).lastWheelAt = s.lastWheelAt :=
      tickSeq_lastWheelAt t0 h s k
    have h220 : 220 < (t0 + (k : ℚ) * h) - (tickSeq t0 h s k).lastWheelAt := by
      rw [hwheel]
      have : (0:ℚ) ≤ (k : ℚ) * h := by positivity
      linarith
    have hlt : (tick (t0 + (k : ℚ) * h) (tickSeq t0 h s k)).scrollCurrentVol < 1/100 := by
      rw [← tickSeq_succ]
      rw [hcv0]
      norm_num
    obtain ⟨hp, hct⟩ := tick_pauses (t0 + (k : ℚ) * h) (tickSeq t0 h s k) h220 hlt
    rw [← tickSeq_succ] at hp hct
    exact ⟨hcv0, hp, hct⟩

theorem scroll_sound_idle_silences_witness :
    ((∀ (s' : SoundState) (now : ℚ), 220 < now - s'.lastWheelAt →
      (tick now s').scrollCurrentVol < 1/100 →
      (tick now s').scrollSnd.paused = true ∧
      (tick now s').scrollSnd.currentTime = 0) ∧
    ∃ N : ℕ, ∀ n : ℕ, N ≤ n →
      (tickSeq 300 16 initSound n).scrollCurrentVol = 0 ∧
      (tickSeq 300 16 initSound n).scrollSnd.paused = true ∧
      (tickSeq 300 16 initSound n).scrollSnd.currentTime = 0) :=
  scroll_sound_idle_silences initSound 300 16 (by norm_num)
    (by norm_num [initSound]) (by norm_num [initSound]) (by norm_num [initSound])

end Helmet
